import Mathlib

/-!
Shallow embedding of the smarthome report editor core: the report data
model and status helpers (`src/types.ts`), the work-log normalization,
merge protocol, earnings computation and mutation handlers of the report
editor (`src/unnamed/part_003`, the `WorkReport` component), the admin
statistics and line-item editor (`src/components/AdminView.tsx`), and the
incremental schedule update (`src/App.tsx`).

JavaScript numbers are modelled as `Int` (quantities, timestamps, ids)
or `Rat` (prices, coefficients, earnings); optional/nullable fields as
`Option`; JSON serialization of the normalized work log as an explicit
string builder.
-/

namespace Smarthome

/-- `ReportStatus` from `src/types.ts`:
`draft | pending_approval | approved_waiting_payment | paid_waiting_confirmation | completed`. -/
inductive ReportStatus where
  | draft
  | pending_approval
  | approved_waiting_payment
  | paid_waiting_confirmation
  | completed
deriving DecidableEq, Repr

/-- `WorkLogItem` from `src/types.ts` (`itemId`, `quantity`); runtime work-log
entries may additionally carry a `coefficient` (read as `item.coefficient ?? 1`
by `totalEarnings` in the editor), modelled as an optional field. -/
structure WorkLogItem where
  itemId : String
  quantity : Int
  coefficient : Option Rat := none
deriving DecidableEq, Repr

/-- `PriceItem` from `src/types.ts`. -/
structure PriceItem where
  id : String
  category : String
  name : String
  price : Rat
deriving DecidableEq, Repr

/-- `ScheduledDay` from `src/types.ts`: one report row. `id` is optional
(absent before first persistence), `objectId` is nullable, `workLog` optional. -/
structure ScheduledDay where
  id : Option Int
  userId : Int
  date : String
  objectId : Option String
  completed : Bool
  status : ReportStatus
  earnings : Rat
  workLog : Option (List WorkLogItem)
deriving DecidableEq, Repr

/-- `Partial<ScheduledDay>`: every field optional, as consumed by
`adaptScheduledDay` in `src/types.ts`. The TS `objectId` may be absent, `null`
or a string; absent and `null` behave identically under `?? null`, so both are
modelled as `none`. -/
structure PartialScheduledDay where
  id : Option Int := none
  userId : Option Int := none
  date : Option String := none
  objectId : Option String := none
  completed : Option Bool := none
  status : Option ReportStatus := none
  earnings : Option Rat := none
  workLog : Option (List WorkLogItem) := none
deriving DecidableEq, Repr

/-- `completedToStatus` from `src/types.ts`. -/
def completedToStatus (completed : Bool) : ReportStatus :=
  if completed then .completed else .draft

/-- `statusToCompleted` from `src/types.ts`. -/
def statusToCompleted (status : ReportStatus) : Bool :=
  status == .completed

/-- `isAccruedStatus` from `src/types.ts`. -/
def isAccruedStatus (status : ReportStatus) : Bool :=
  [ReportStatus.approved_waiting_payment, .paid_waiting_confirmation,
    .completed].contains status

/-- `adaptScheduledDay` from `src/types.ts`. The TS default for a missing
`date` is the current date string (`new Date().toISOString().split('T')[0]`),
passed here explicitly as `nowDate`. -/
def adaptScheduledDay (day : PartialScheduledDay) (nowDate : String) : ScheduledDay :=
  { id := day.id
    userId := day.userId.getD 0
    date := day.date.getD nowDate
    objectId := day.objectId
    earnings := day.earnings.getD 0
    workLog := some (day.workLog.getD [])
    status :=
      match day.status with
      | some s => s
      | none => completedToStatus (day.completed.getD false)
    completed :=
      match day.completed with
      | some c => c
      | none =>
        match day.status with
        | some s => statusToCompleted s
        | none => false }

/-! ### Work-log normalization (`normalizeWorkLog`, `src/unnamed/part_003` lines 87–97) -/

/-- Projection of a work-log entry used by `normalizeWorkLog`:
`\x7b itemId: String(item.itemId), quantity: item.quantity \x7d`. -/
structure NormItem where
  itemId : String
  quantity : Int
deriving DecidableEq, Repr

/-- JSON escape of one character, as `JSON.stringify` performs on string
values: `"` and `\` are backslash-escaped, control characters use the special
short forms or a `\u00XX` escape, everything else is copied verbatim. -/
def jsonEscapeChar (c : Char) : String :=
  if c = '"' then "\\\""
  else if c = '\\' then "\\\\"
  else if c = '\x08' then "\\b"
  else if c = '\x09' then "\\t"
  else if c = '\x0a' then "\\n"
  else if c = '\x0c' then "\\f"
  else if c = '\x0d' then "\\r"
  else if c.toNat < 0x20 then
    "\\u00" ++ String.mk [Nat.digitChar (c.toNat / 16), Nat.digitChar (c.toNat % 16)]
  else String.mk [c]

/-- `JSON.stringify` of a string value. -/
def jsonOfString (s : String) : String :=
  "\"" ++ String.join (s.toList.map jsonEscapeChar) ++ "\""

/-- `JSON.stringify` of one normalized work-log entry
(an object with keys `itemId` and `quantity`, in insertion order). -/
def jsonOfNormItem (item : NormItem) : String :=
  "\x7b\"itemId\":" ++ jsonOfString item.itemId ++ ",\"quantity\":" ++ toString item.quantity ++ "\x7d"

/-- `JSON.stringify` of the normalized array. -/
def jsonOfNormList (l : List NormItem) : String :=
  "[" ++ String.intercalate "," (l.map jsonOfNormItem) ++ "]"

/-- Stable insertion of an element into a list sorted by `itemId`: the new
element goes after every element whose `itemId` is not greater, matching the
stable JS `sort((a, b) => a.itemId.localeCompare(b.itemId))` (the linear
order on `String` stands in for the locale collation; only that it is a
deterministic total order matters to the properties proved here). -/
def insertByItemId (x : NormItem) : List NormItem → List NormItem
  | [] => [x]
  | y :: ys => if x.itemId < y.itemId then x :: y :: ys else y :: insertByItemId x ys

/-- Stable sort by `itemId` (insertion sort). -/
def sortByItemId : List NormItem → List NormItem
  | [] => []
  | x :: xs => insertByItemId x (sortByItemId xs)

/-- `normalizeWorkLog` from `src/unnamed/part_003` (lines 87–97): empty string
for an absent or empty log, otherwise the serialization of the entries with
positive quantity, projected to `(itemId, quantity)` and sorted by `itemId`. -/
def normalizeWorkLog (workLog : Option (List WorkLogItem)) : String :=
  match workLog with
  | none => ""
  | some l =>
    if l.length = 0 then ""
    else
      let normalized := (l.filter (fun item => item.quantity > 0)).map
        (fun item => NormItem.mk item.itemId item.quantity)
      jsonOfNormList (sortByItemId normalized)

/-- The zero-quantity filter applied by `normalizeWorkLog` (and before saves):
keep exactly the entries with positive quantity. -/
def filterZeroQuantity (l : List WorkLogItem) : List WorkLogItem :=
  l.filter (fun item => item.quantity > 0)

/-! ### Editability (`src/unnamed/part_003` lines 67–84) -/

/-- JavaScript `<` on strings: lexicographic comparison of the code-unit
sequences (all strings in play are ASCII dates `YYYY-MM-DD`). -/
def jsCharsLt : List Char → List Char → Bool
  | [], [] => false
  | [], _ :: _ => true
  | _ :: _, [] => false
  | x :: xs, y :: ys =>
    if x < y then true
    else if y < x then false
    else jsCharsLt xs ys

/-- JavaScript string comparison `a < b`. -/
def jsStringLt (a b : String) : Bool :=
  jsCharsLt a.toList b.toList

/-- `schedule.find(s => s.userId === currentUser.id && s.date === selectedDate)`
(`src/unnamed/part_003` line 68). -/
def existingDayFor (schedule : List ScheduledDay) (userId : Int) (selectedDate : String) :
    Option ScheduledDay :=
  schedule.find? (fun s => s.userId == userId && s.date == selectedDate)

/-- `getStatus` (`src/unnamed/part_003` lines 71–75). In the embedding
`ScheduledDay.status` is total (as in the `ScheduledDay` TS interface) and a
status string is never empty, so the `existingDay?.status` truthiness test
succeeds whenever `existingDay` exists and the legacy `completed` fallback
line is unreachable. -/
def getStatus (existingDay : Option ScheduledDay) : ReportStatus :=
  match existingDay with
  | some d => d.status
  | none => .draft

/-- `isEditable` (`src/unnamed/part_003` lines 78–84):
`isPastDate ? (isScheduled && (status draft|pending)) : (status draft|pending)`
with `isPastDate = selectedDate < todayStr` and `isScheduled = !!existingDay`. -/
def isEditable (existingDay : Option ScheduledDay) (selectedDate todayStr : String) : Bool :=
  let status := getStatus existingDay
  let isPastDate := jsStringLt selectedDate todayStr
  let isScheduled := existingDay.isSome
  if isPastDate then
    isScheduled && (status == .draft || status == .pending_approval)
  else
    status == .draft || status == .pending_approval

/-! ### Earnings (`totalEarnings`, `src/unnamed/part_003` lines 233–238) -/

/-- JavaScript `Math.round`: round half toward positive infinity. -/
def jsRound (q : Rat) : Int :=
  ⌊q + 1 / 2⌋

/-- `totalEarnings` (`src/unnamed/part_003` lines 233–238):
`Math.round(log.reduce((sum, item) => sum + price * coefficient * quantity, 0))`
with `price = priceList.find(p => p.id === item.itemId)?.price || 0` (the `|| 0`
collapses with the optional-chain default because a missing item already yields
`0`) and `coefficient = item.coefficient ?? 1`. -/
def totalEarnings (log : List WorkLogItem) (priceList : List PriceItem) : Int :=
  jsRound (log.foldl
    (fun sum item =>
      let priceItem := priceList.find? (fun p => p.id == item.itemId)
      let price := (priceItem.map (fun p => p.price)).getD 0
      let coefficient := item.coefficient.getD 1
      sum + price * coefficient * item.quantity)
    0)

/-- The price the catalog assigns to `itemId`: the price of the first matching
item, `0` when no catalog item matches. -/
def priceOf (priceList : List PriceItem) (itemId : String) : Rat :=
  match priceList.find? (fun p => p.id == itemId) with
  | some p => p.price
  | none => 0

/-- One work-log entry's contribution to earnings:
`price(itemId) * coefficient * quantity`, the coefficient defaulting to `1`
when absent and an unresolved `itemId` contributing `0` through `priceOf`. -/
def entryEarnings (priceList : List PriceItem) (item : WorkLogItem) : Rat :=
  priceOf priceList item.itemId * item.coefficient.getD 1 * item.quantity

/-- The spec's earnings formula, stated as in spec.md §4.1:
`round( Σ over workLog entries of price(itemId) * coefficient * quantity )`. -/
def specEarnings (log : List WorkLogItem) (priceList : List PriceItem) : Int :=
  jsRound ((log.map (entryEarnings priceList)).sum)

/-! ### Merge protocol (`src/unnamed/part_003` lines 138–155) -/

/-- The local editor state touched by the poll-merge effect: the selected
site, the local work log and the last server hash we agreed on. -/
structure EditorState where
  selectedObject : String
  log : List WorkLogItem
  lastServerDataHash : String
deriving DecidableEq, Repr

/-- `MIN_EDIT_COOLDOWN` (`src/unnamed/part_003` line 141), in milliseconds. -/
def MIN_EDIT_COOLDOWN : Int := 2000

/-- The work-log half of the post-initialization polling effect
(`src/unnamed/part_003` lines 139–150): compute the server hash, and when it
differs from the last known hash and the edit cooldown has elapsed, accept the
server work log and the server hash (the `if (existingDay.workLog)` truthiness
test is the `Option` match). -/
def pollMergeWorkLogGate (st : EditorState) (existingDay : ScheduledDay)
    (now lastLocalEditTime : Int) : EditorState :=
  let serverHash := normalizeWorkLog existingDay.workLog
  let timeSinceLastEdit := now - lastLocalEditTime
  if serverHash ≠ st.lastServerDataHash then
    if timeSinceLastEdit > MIN_EDIT_COOLDOWN then
      match existingDay.workLog with
      | some wl => { st with log := wl, lastServerDataHash := serverHash }
      | none => st
    else st
  else st

/-- The `objectId` half of the polling effect (`src/unnamed/part_003` lines
152–154): accept a changed server `objectId` under the same cooldown gate
(`existingDay.objectId` is truthy only for a non-null, non-empty string). -/
def pollMergeObjectGate (st : EditorState) (existingDay : ScheduledDay)
    (now lastLocalEditTime : Int) : EditorState :=
  let timeSinceLastEdit := now - lastLocalEditTime
  match existingDay.objectId with
  | some oid =>
    if oid ≠ "" ∧ oid ≠ st.selectedObject ∧ timeSinceLastEdit > MIN_EDIT_COOLDOWN then
      { st with selectedObject := oid }
    else st
  | none => st

/-- The post-initialization body of the polling effect
(`src/unnamed/part_003` lines 138–155): the work-log gate followed by the
`objectId` gate (the first gate never touches `selectedObject`, so running the
second on its output matches the source, whose two statements read disjoint
parts of the state). -/
def pollMergeStep (st : EditorState) (existingDay : ScheduledDay)
    (now lastLocalEditTime : Int) : EditorState :=
  pollMergeObjectGate (pollMergeWorkLogGate st existingDay now lastLocalEditTime)
    existingDay now lastLocalEditTime

/-! ### Local mutations (`src/unnamed/part_003` lines 189–229) -/

/-- The state update of `setQuantity` (`src/unnamed/part_003` lines 189–201):
a non-positive quantity removes the entry, otherwise the existing entry is
rewritten or a fresh `\x7b itemId, quantity \x7d` entry appended. (The
`isEditable` early return guards the call sites; the list update itself is
modelled here.) -/
def setQuantity (log : List WorkLogItem) (id : String) (quantity : Int) :
    List WorkLogItem :=
  if quantity ≤ 0 then
    log.filter (fun item => item.itemId != id)
  else
    match log.find? (fun item => item.itemId == id) with
    | some _ =>
      log.map (fun item =>
        if item.itemId == id then { item with quantity := quantity } else item)
    | none => log ++ [{ itemId := id, quantity := quantity }]

/-- `normalizeQuantityInput` (`src/unnamed/part_003` lines 209–214):
strip non-digits, then leading zeros; empty results stay empty. -/
def normalizeQuantityInput (raw : String) : String :=
  let digitsOnly := String.mk (raw.toList.filter Char.isDigit)
  if digitsOnly = "" then ""
  else
    let withoutLeadingZeros := String.mk (digitsOnly.toList.dropWhile (fun c => c == '0'))
    if withoutLeadingZeros = "" then "" else withoutLeadingZeros

/-- `Number(s)` on the output of `normalizeQuantityInput` (a digit string):
its numeric value, `0` for the empty string. -/
def jsNumberOfDigits (s : String) : Int :=
  (s.toNat?).getD 0

/-- The quantity `handleQuantityInput` (`src/unnamed/part_003` lines 216–229)
passes to `setQuantity` for a raw typed string: `0` (removal) for an empty
normalization or a non-positive parse, the parsed number otherwise. -/
def parsedQuantity (raw : String) : Int :=
  let normalized := normalizeQuantityInput raw
  if normalized = "" then 0
  else
    let quantity := jsNumberOfDigits normalized
    if quantity ≤ 0 then 0 else quantity

/-- `handleQuantityInput` (`src/unnamed/part_003` lines 216–229) as a state
update: every branch delegates to `setQuantity` with `parsedQuantity raw`. -/
def handleQuantityInput (log : List WorkLogItem) (id : String) (raw : String) :
    List WorkLogItem :=
  setQuantity log id (parsedQuantity raw)

/-- The `newLog` computed by `handleUpdateLogItem`
(`src/components/AdminView.tsx` lines 345–347): clamp the edited entry's
quantity at `0` from below, then drop all non-positive entries. -/
def handleUpdateLogItem (workLog : List WorkLogItem) (itemId : String) (newQty : Int) :
    List WorkLogItem :=
  (workLog.map (fun item =>
    if item.itemId == itemId then { item with quantity := max 0 newQty } else item)).filter
    (fun item => item.quantity > 0)

/-! ### Autosave (`src/unnamed/part_003` lines 309–369) -/

/-- The payload of `scheduleApi.completeWork`. -/
structure CompleteWorkPayload where
  userId : Int
  date : String
  objectId : String
  workLog : List WorkLogItem
  status : ReportStatus
  completed : Bool
deriving DecidableEq, Repr

/-- The `saveStatus` indicator states. -/
inductive SaveStatus where
  | idle
  | saving
  | saved
  | error
deriving DecidableEq, Repr

/-- Whether and with what payload the autosave effect arms its debounce timer
(`src/unnamed/part_003` lines 309–341): `none` when one of the early returns
fires (not initialized, not editable, no local edit yet, a manual save in
flight, or the local log already matches the last known server hash),
otherwise the `completeWork` payload the timer will send — always status
`draft`, `completed: false`. -/
def autosaveEvaluate (isInitialized isEditable : Bool) (lastLocalEditTime : Int)
    (isSaving : Bool) (log : List WorkLogItem) (lastServerDataHash : String)
    (userId : Int) (selectedDate selectedObject : String) : Option CompleteWorkPayload :=
  if !isInitialized || !isEditable || lastLocalEditTime == 0 || isSaving then
    none
  else if normalizeWorkLog (some log) == lastServerDataHash then
    none
  else
    some { userId := userId, date := selectedDate, objectId := selectedObject,
           workLog := log, status := .draft, completed := false }

/-- The session state the autosave callbacks mutate. -/
structure AutosaveState where
  log : List WorkLogItem
  lastServerDataHash : String
  saveStatus : SaveStatus
deriving DecidableEq, Repr

/-- The success branch of the autosave timer callback
(`src/unnamed/part_003` lines 343–357): update the last known server hash from
the server response when it carries a work log (`if (updated?.workLog)`), and
show the saved indicator. -/
def autosaveOnSuccess (st : AutosaveState) (updatedWorkLog : Option (List WorkLogItem)) :
    AutosaveState :=
  { st with
    lastServerDataHash :=
      match updatedWorkLog with
      | some wl => normalizeWorkLog (some wl)
      | none => st.lastServerDataHash
    saveStatus := .saved }

/-- The failure branch of the autosave timer callback
(`src/unnamed/part_003` lines 358–361): only the error indicator is set. -/
def autosaveOnFailure (st : AutosaveState) : AutosaveState :=
  { st with saveStatus := .error }

/-! ### Admin statistics (`getUserStats`, `src/components/AdminView.tsx` lines 396–414) -/

/-- The `userWork` filter of `getUserStats`
(`schedule.filter(s => s.userId === userId && s.objectId)`): the `objectId`
truthiness test passes exactly for a non-null, non-empty string. -/
def userWorkFilter (userId : Int) (s : ScheduledDay) : Bool :=
  s.userId == userId &&
    (match s.objectId with
     | some oid => oid != ""
     | none => false)

/-- The `pending` sum of `getUserStats` (`src/components/AdminView.tsx`
lines 401–403). -/
def getUserStatsPending (schedule : List ScheduledDay) (userId : Int) : Rat :=
  (((schedule.filter (userWorkFilter userId)).filter
    (fun s => s.status == .pending_approval)).foldl (fun acc s => acc + s.earnings) 0)

/-- The `approved` sum of `getUserStats` (`src/components/AdminView.tsx`
lines 406–408). -/
def getUserStatsApproved (schedule : List ScheduledDay) (userId : Int) : Rat :=
  (((schedule.filter (userWorkFilter userId)).filter
    (fun s => isAccruedStatus s.status)).foldl (fun acc s => acc + s.earnings) 0)

/-! ### Incremental schedule update (`updateScheduleItem`, `src/App.tsx` lines 319–330) -/

/-- `updateScheduleItem` (`src/App.tsx` lines 319–330): adapt the incoming
item, replace the first schedule entry with the same `id` (JS
`findIndex(s => s.id === adapted.id)`; `undefined === undefined` is `true`,
matching `Option` equality), or append when no entry matches. -/
def updateScheduleItem (prev : List ScheduledDay) (updatedItem : PartialScheduledDay)
    (nowDate : String) : List ScheduledDay :=
  let adapted := adaptScheduledDay updatedItem nowDate
  match prev.findIdx? (fun s => s.id == adapted.id) with
  | some index => prev.set index adapted
  | none => prev ++ [adapted]

/-! ## Theorems -/

/-- The earnings fold of `totalEarnings` accumulates exactly the per-entry
contributions `entryEarnings`. -/
lemma totalEarnings_foldl (priceList : List PriceItem) :
    ∀ (log : List WorkLogItem) (init : Rat),
      log.foldl (fun sum item =>
        let priceItem := priceList.find? (fun p => p.id == item.itemId)
        let price := (priceItem.map (fun p => p.price)).getD 0
        let coefficient := item.coefficient.getD 1
        sum + price * coefficient * item.quantity) init
      = init + (log.map (entryEarnings priceList)).sum
  | [], init => by simp
  | item :: rest, init => by
    rw [List.foldl_cons, totalEarnings_foldl priceList rest]
    have hprice : ((priceList.find? (fun p => p.id == item.itemId)).map
        (fun p => p.price)).getD 0 = priceOf priceList item.itemId := by
      unfold priceOf
      cases priceList.find? (fun p => p.id == item.itemId) <;> rfl
    simp only [List.map_cons, List.sum_cons, entryEarnings, hprice]
    ring

/-- C2: for every work log and price catalog, the editor's `totalEarnings`
equals the rounded sum over the entries of
`price(itemId) * coefficient * quantity`, with the coefficient defaulting to
`1` when absent and an entry with no matching catalog item contributing `0`. -/
theorem claim_C2 (log : List WorkLogItem) (priceList : List PriceItem) :
    totalEarnings log priceList = specEarnings log priceList := by
  unfold totalEarnings specEarnings
  rw [totalEarnings_foldl, zero_add]

/-- C3: `adaptScheduledDay` on a partially-populated record (at least one of
`status` and `completed` absent, the adapter deriving the missing one from the
other) returns a record in which the legacy `completed` flag and the `status`
field agree: `completed` is `true` iff `status` is `completed`. -/
theorem claim_C3 (day : PartialScheduledDay) (nowDate : String)
    (h : day.status = none ∨ day.completed = none) :
    (adaptScheduledDay day nowDate).completed = true ↔
      (adaptScheduledDay day nowDate).status = ReportStatus.completed := by
  rcases hs : day.status with _ | s <;> rcases hc : day.completed with _ | c
  · simp [adaptScheduledDay, hs, hc, completedToStatus]
  · cases c <;> simp [adaptScheduledDay, hs, hc, completedToStatus]
  · cases s <;> simp [adaptScheduledDay, hs, hc, statusToCompleted]
  · rcases h with h | h
    · rw [hs] at h; cases h
    · rw [hc] at h; cases h

/-- C3 witness: a record carrying only `status := completed` adapts to
`completed = true`. -/
theorem claim_C3_witness :
    (adaptScheduledDay { status := some ReportStatus.completed } "2025-01-01").completed
      = true :=
  (claim_C3 { status := some ReportStatus.completed } "2025-01-01" (Or.inr rfl)).mpr rfl

/-- C4: a report is editable iff its status is `draft` or `pending_approval`,
and additionally, when the selected date is strictly before today, only if a
report row for the user and date already exists in the schedule. -/
theorem claim_C4 (schedule : List ScheduledDay) (userId : Int)
    (selectedDate todayStr : String) :
    isEditable (existingDayFor schedule userId selectedDate) selectedDate todayStr = true ↔
      ((getStatus (existingDayFor schedule userId selectedDate) = ReportStatus.draft ∨
        getStatus (existingDayFor schedule userId selectedDate) = ReportStatus.pending_approval) ∧
       (jsStringLt selectedDate todayStr = true →
        (existingDayFor schedule userId selectedDate).isSome = true)) := by
  unfold isEditable
  cases hp : jsStringLt selectedDate todayStr
  · simp [hp]
  · simp [hp, and_comm]

/-- C4 witness: a draft report pre-assigned for a past date is editable. -/
theorem claim_C4_witness :
    isEditable
      (existingDayFor
        [{ id := some 1, userId := 7, date := "2025-01-01", objectId := some "o1",
           completed := false, status := ReportStatus.draft, earnings := 0,
           workLog := some [] }] 7 "2025-01-01")
      "2025-01-01" "2025-01-02" = true :=
  (claim_C4
    [{ id := some 1, userId := 7, date := "2025-01-01", objectId := some "o1",
       completed := false, status := ReportStatus.draft, earnings := 0,
       workLog := some [] }] 7 "2025-01-01" "2025-01-02").mpr
    ⟨Or.inl rfl, fun _ => rfl⟩

/-- The serialization of a normalized array is never the empty string: it is
bracketed. -/
lemma jsonOfNormList_ne_empty (l : List NormItem) : jsonOfNormList l ≠ "" := by
  intro h
  have hlen := congrArg String.length h
  simp only [jsonOfNormList, String.length_append] at hlen
  have hb : "[".length = 1 := rfl
  have hb2 : "]".length = 1 := rfl
  have hb3 : "".length = 0 := rfl
  omega

/-- Unfolding of `normalizeWorkLog` on a present log. -/
lemma normalizeWorkLog_some (l : List WorkLogItem) :
    normalizeWorkLog (some l) =
      if l.length = 0 then ""
      else
        jsonOfNormList (sortByItemId ((l.filter (fun item => item.quantity > 0)).map
          (fun item => NormItem.mk item.itemId item.quantity))) :=
  rfl

/-- C5 counterexample: for the one-entry log with quantity `0`, filtering the
zero-quantity entries first yields the empty log, which normalizes to `""`,
while the original log normalizes to `"[]"`. -/
theorem claim_C5_counterexample :
    normalizeWorkLog (some (filterZeroQuantity [{ itemId := "A", quantity := 0 }])) ≠
      normalizeWorkLog (some [{ itemId := "A", quantity := 0 }]) := by
  decide

/-- C5 amended: normalization is idempotent for every work log that is empty
or retains at least one positive-quantity entry (the only exceptions are
non-empty logs all of whose entries have non-positive quantity, which
normalize to `"[]"` while their filtered form normalizes to `""`). -/
theorem claim_C5_amended (l : List WorkLogItem)
    (h : l = [] ∨ ∃ i ∈ l, 0 < i.quantity) :
    normalizeWorkLog (some (filterZeroQuantity l)) = normalizeWorkLog (some l) := by
  rcases h with rfl | ⟨i, hi, hpos⟩
  · rfl
  · have hne : l ≠ [] := by rintro rfl; cases hi
    have hmem : i ∈ filterZeroQuantity l :=
      List.mem_filter.mpr ⟨hi, by simpa using hpos⟩
    have hfne : filterZeroQuantity l ≠ [] := by
      intro hcon
      rw [hcon] at hmem
      cases hmem
    rw [normalizeWorkLog_some, normalizeWorkLog_some]
    unfold filterZeroQuantity
    rw [if_neg (by simp only [List.length_eq_zero]; exact hfne),
        if_neg (by simp only [List.length_eq_zero]; exact hne)]
    rw [List.filter_filter]
    rw [List.filter_congr (fun x _ => Bool.and_self _)]

/-- C5 amended witness: idempotence at a concrete log with one positive
entry. -/
theorem claim_C5_amended_witness :
    normalizeWorkLog (some (filterZeroQuantity [{ itemId := "A", quantity := 2 }])) =
      normalizeWorkLog (some [{ itemId := "A", quantity := 2 }]) :=
  claim_C5_amended [{ itemId := "A", quantity := 2 }]
    (Or.inr ⟨{ itemId := "A", quantity := 2 }, List.mem_singleton.mpr rfl, by decide⟩)

/-- C6: every status is classified into exactly one of draft-like, pending and
accrued — `isAccruedStatus` holds exactly on the three post-approval statuses,
the three classifications partition `ReportStatus` — and consequently a report
counted in the `pending` sum of `getUserStats` is never counted in its
`approved` sum and vice versa: restricting the schedule to reports of the one
classification makes the other sum vanish. -/
theorem claim_C6 (s : ReportStatus) :
    (isAccruedStatus s = true ↔
      (s = ReportStatus.approved_waiting_payment ∨
       s = ReportStatus.paid_waiting_confirmation ∨
       s = ReportStatus.completed)) ∧
    ((s == ReportStatus.draft).toNat + (s == ReportStatus.pending_approval).toNat +
      (isAccruedStatus s).toNat = 1) ∧
    (∀ (schedule : List ScheduledDay) (userId : Int),
      getUserStatsApproved
        (schedule.filter (fun d => d.status == ReportStatus.pending_approval)) userId = 0) ∧
    (∀ (schedule : List ScheduledDay) (userId : Int),
      getUserStatsPending
        (schedule.filter (fun d => isAccruedStatus d.status)) userId = 0) := by
  refine ⟨by cases s <;> simp [isAccruedStatus], by cases s <;> rfl, ?_, ?_⟩
  · intro schedule userId
    unfold getUserStatsApproved
    have hnil :
        ((schedule.filter (fun d => d.status == ReportStatus.pending_approval)).filter
          (userWorkFilter userId)).filter (fun d => isAccruedStatus d.status) = [] := by
      apply List.filter_eq_nil_iff.mpr
      intro d hd
      have hpend : (d.status == ReportStatus.pending_approval) = true :=
        (List.mem_filter.mp (List.mem_filter.mp hd).1).2
      cases hstat : d.status <;> rw [hstat] at hpend <;> revert hpend <;> decide
    rw [hnil]
    rfl
  · intro schedule userId
    unfold getUserStatsPending
    have hnil :
        ((schedule.filter (fun d => isAccruedStatus d.status)).filter
          (userWorkFilter userId)).filter (fun d => d.status == ReportStatus.pending_approval)
          = [] := by
      apply List.filter_eq_nil_iff.mpr
      intro d hd
      have haccr : isAccruedStatus d.status = true :=
        (List.mem_filter.mp (List.mem_filter.mp hd).1).2
      cases hstat : d.status <;> rw [hstat] at haccr <;> revert haccr <;> decide
    rw [hnil]
    rfl

/-- C6 witness: the classification applied at `completed`. -/
theorem claim_C6_witness :
    isAccruedStatus ReportStatus.completed = true :=
  (claim_C6 ReportStatus.completed).1.mpr (Or.inr (Or.inr rfl))

/-- C9: `normalizeWorkLog` yields `""` exactly for an absent or empty log,
while a non-empty log all of whose entries have non-positive quantity yields
`"[]"`, a fingerprint different from the absent log's, so the two compare as
unequal under the merge protocol's hash comparison. -/
theorem claim_C9 (w : Option (List WorkLogItem)) :
    (normalizeWorkLog w = "" ↔ (w = none ∨ w = some [])) ∧
    (∀ l : List WorkLogItem, l ≠ [] → (∀ i ∈ l, i.quantity ≤ 0) →
      normalizeWorkLog (some l) = "[]" ∧
      normalizeWorkLog (some l) ≠ normalizeWorkLog none) := by
  constructor
  · cases w with
    | none => simp [normalizeWorkLog]
    | some l =>
      cases l with
      | nil => simp [normalizeWorkLog]
      | cons x xs => simp [normalizeWorkLog, jsonOfNormList_ne_empty]
  · intro l hne hall
    have hfilter : l.filter (fun item => item.quantity > 0) = [] := by
      apply List.filter_eq_nil_iff.mpr
      intro a ha
      simpa using not_lt.mpr (hall a ha)
    have hmain : normalizeWorkLog (some l) = "[]" := by
      rw [normalizeWorkLog_some,
        if_neg (by simpa [List.length_eq_zero] using hne), hfilter]
      rfl
    exact ⟨hmain, by rw [hmain]; decide⟩

/-- C9 witness: the one-entry zero-quantity log normalizes to `"[]"`, unequal
to the absent log's `""`. -/
theorem claim_C9_witness :
    normalizeWorkLog (some [{ itemId := "A", quantity := 0 }]) = "[]" ∧
      normalizeWorkLog (some [{ itemId := "A", quantity := 0 }]) ≠ normalizeWorkLog none :=
  (claim_C9 (some [{ itemId := "A", quantity := 0 }])).2
    [{ itemId := "A", quantity := 0 }] (by decide) (by decide)

/-- C8: every local work-log mutation preserves the no-non-positive-quantity
invariant: `setQuantity` with a non-positive quantity removes the entry and
otherwise preserves the invariant, typed input parses to a positive integer or
removal, `handleQuantityInput` preserves the invariant, and the admin
line-item editor's new log contains only positive quantities. -/
theorem claim_C8 :
    (∀ (log : List WorkLogItem) (id : String) (q : Int),
      (∀ i ∈ log, 0 < i.quantity) → ∀ i ∈ setQuantity log id q, 0 < i.quantity) ∧
    (∀ (log : List WorkLogItem) (id : String) (q : Int), q ≤ 0 →
      setQuantity log id q = log.filter (fun i => i.itemId != id)) ∧
    (∀ raw : String, parsedQuantity raw = 0 ∨ 0 < parsedQuantity raw) ∧
    (∀ (log : List WorkLogItem) (id : String) (raw : String),
      (∀ i ∈ log, 0 < i.quantity) → ∀ i ∈ handleQuantityInput log id raw, 0 < i.quantity) ∧
    (∀ (workLog : List WorkLogItem) (itemId : String) (newQty : Int),
      ∀ i ∈ handleUpdateLogItem workLog itemId newQty, 0 < i.quantity) := by
  have hset : ∀ (log : List WorkLogItem) (id : String) (q : Int),
      (∀ i ∈ log, 0 < i.quantity) → ∀ i ∈ setQuantity log id q, 0 < i.quantity := by
    intro log id q hall i hi
    unfold setQuantity at hi
    split at hi
    · exact hall i (List.mem_filter.mp hi).1
    · rename_i hq
      split at hi
      · rcases List.mem_map.mp hi with ⟨j, hj, rfl⟩
        split
        · show 0 < q
          omega
        · exact hall j hj
      · rcases List.mem_append.mp hi with h | h
        · exact hall i h
        · rw [List.mem_singleton] at h
          subst h
          show 0 < q
          omega
  refine ⟨hset, ?_, ?_, ?_, ?_⟩
  · intro log id q hq
    unfold setQuantity
    rw [if_pos hq]
  · intro raw
    by_cases h1 : normalizeQuantityInput raw = ""
    · left
      simp only [parsedQuantity]
      rw [if_pos h1]
    · by_cases h2 : jsNumberOfDigits (normalizeQuantityInput raw) ≤ 0
      · left
        simp only [parsedQuantity]
        rw [if_neg h1, if_pos h2]
      · right
        simp only [parsedQuantity]
        rw [if_neg h1, if_neg h2]
        omega
  · intro log id raw hall i hi
    exact hset log id (parsedQuantity raw) hall i hi
  · intro workLog itemId newQty i hi
    have := (List.mem_filter.mp hi).2
    simpa using this

/-- C8 witness: setting an entry's quantity to `0` removes it. -/
theorem claim_C8_witness :
    setQuantity [{ itemId := "A", quantity := 2 }] "A" 0 = [] :=
  (claim_C8.2.1 [{ itemId := "A", quantity := 2 }] "A" 0 (by decide)).trans (by decide)

/-- C7: the autosave debounce timer is armed exactly when the session is
initialized, the report is editable, a local edit has occurred, no manual save
is in flight and the normalized local log differs from the last known server
hash; the armed save's payload always carries status `draft` and
`completed = false`; success updates the last known server hash to the newly
confirmed snapshot and shows the saved indicator; failure sets only the error
indicator. -/
theorem claim_C7 :
    (∀ (isInit edit : Bool) (t : Int) (sav : Bool) (log : List WorkLogItem)
       (hash : String) (uid : Int) (date obj : String),
      (autosaveEvaluate isInit edit t sav log hash uid date obj).isSome =
        (isInit && edit && !(t == 0) && !sav && !(normalizeWorkLog (some log) == hash))) ∧
    (∀ (isInit edit : Bool) (t : Int) (sav : Bool) (log : List WorkLogItem)
       (hash : String) (uid : Int) (date obj : String) (p : CompleteWorkPayload),
      autosaveEvaluate isInit edit t sav log hash uid date obj = some p →
      p.status = ReportStatus.draft ∧ p.completed = false) ∧
    (∀ (st : AutosaveState) (wl : List WorkLogItem),
      autosaveOnSuccess st (some wl) =
        { st with lastServerDataHash := normalizeWorkLog (some wl),
                  saveStatus := SaveStatus.saved }) ∧
    (∀ st : AutosaveState, autosaveOnFailure st = { st with saveStatus := SaveStatus.error }) := by
  refine ⟨?_, ?_, fun st wl => rfl, fun st => rfl⟩
  · intro isInit edit t sav log hash uid date obj
    unfold autosaveEvaluate
    cases isInit <;> cases edit <;> cases sav <;>
      cases ht : (t == 0 : Bool) <;>
        cases hh : (normalizeWorkLog (some log) == hash) <;>
          simp [ht, hh]
  · intro isInit edit t sav log hash uid date obj p h
    unfold autosaveEvaluate at h
    split at h
    · exact Option.noConfusion h
    · split at h
      · exact Option.noConfusion h
      · injection h with h2
        subst h2
        exact ⟨rfl, rfl⟩

/-- C7 witness: the payload armed for a fresh local edit is a draft,
non-completed save. -/
theorem claim_C7_witness :
    ({ userId := 1, date := "2025-01-02", objectId := "obj",
       workLog := [{ itemId := "A", quantity := 1 }], status := ReportStatus.draft,
       completed := false } : CompleteWorkPayload).status = ReportStatus.draft ∧
    ({ userId := 1, date := "2025-01-02", objectId := "obj",
       workLog := [{ itemId := "A", quantity := 1 }], status := ReportStatus.draft,
       completed := false } : CompleteWorkPayload).completed = false :=
  claim_C7.2.1 true true 1 false [{ itemId := "A", quantity := 1 }] "" 1 "2025-01-02" "obj"
    _ rfl

/-- Within the edit cooldown the work-log gate leaves the state untouched. -/
lemma pollMergeWorkLogGate_suppress (st : EditorState) (d : ScheduledDay)
    (now t : Int) (h : ¬ (now - t > MIN_EDIT_COOLDOWN)) :
    pollMergeWorkLogGate st d now t = st := by
  simp only [pollMergeWorkLogGate]
  by_cases hd : normalizeWorkLog d.workLog ≠ st.lastServerDataHash
  · rw [if_pos hd, if_neg h]
  · rw [if_neg hd]

/-- Past the cooldown, a differing snapshot with a present work log is
accepted by the work-log gate. -/
lemma pollMergeWorkLogGate_accept (st : EditorState) (d : ScheduledDay) (now t : Int)
    (hdiff : normalizeWorkLog d.workLog ≠ st.lastServerDataHash)
    (hgt : now - t > MIN_EDIT_COOLDOWN) (wl : List WorkLogItem) (hwl : d.workLog = some wl) :
    pollMergeWorkLogGate st d now t =
      { st with log := wl, lastServerDataHash := normalizeWorkLog d.workLog } := by
  simp only [pollMergeWorkLogGate]
  rw [if_pos hdiff, if_pos hgt, hwl]

/-- The `objectId` gate never touches the work log or the last known server
hash. -/
lemma pollMergeObjectGate_frame (st : EditorState) (d : ScheduledDay) (now t : Int) :
    (pollMergeObjectGate st d now t).log = st.log ∧
    (pollMergeObjectGate st d now t).lastServerDataHash = st.lastServerDataHash := by
  cases hobj : d.objectId with
  | none =>
    simp [pollMergeObjectGate, hobj]
  | some oid =>
    simp only [pollMergeObjectGate, hobj]
    by_cases hc : oid ≠ "" ∧ oid ≠ st.selectedObject ∧ now - t > MIN_EDIT_COOLDOWN
    · rw [if_pos hc]
      simp
    · rw [if_neg hc]
      simp

/-- C1: on a poll tick whose (adapted) server snapshot hashes differently from
the last known server hash, the merge protocol suppresses the overwrite while
at most `MIN_EDIT_COOLDOWN` (2000 ms) has elapsed since the last local edit,
and past the cooldown accepts the server work log into local state and updates
the last known server hash to the server hash. Polled snapshots always pass
through `adaptScheduledDay` (`src/App.tsx`), so the snapshot is quantified as
the adaptation of an arbitrary raw record. -/
theorem claim_C1 (raw : PartialScheduledDay) (nowDate : String) (st : EditorState)
    (now lastLocalEditTime : Int)
    (hdiff : normalizeWorkLog (adaptScheduledDay raw nowDate).workLog ≠ st.lastServerDataHash) :
    (now - lastLocalEditTime ≤ MIN_EDIT_COOLDOWN →
      (pollMergeStep st (adaptScheduledDay raw nowDate) now lastLocalEditTime).log = st.log ∧
      (pollMergeStep st (adaptScheduledDay raw nowDate) now lastLocalEditTime).lastServerDataHash
        = st.lastServerDataHash) ∧
    (now - lastLocalEditTime > MIN_EDIT_COOLDOWN →
      (pollMergeStep st (adaptScheduledDay raw nowDate) now lastLocalEditTime).log
        = raw.workLog.getD [] ∧
      (pollMergeStep st (adaptScheduledDay raw nowDate) now lastLocalEditTime).lastServerDataHash
        = normalizeWorkLog (adaptScheduledDay raw nowDate).workLog) := by
  constructor
  · intro hle
    have hnot : ¬ (now - lastLocalEditTime > MIN_EDIT_COOLDOWN) := not_lt.mpr hle
    unfold pollMergeStep
    rw [pollMergeWorkLogGate_suppress _ _ _ _ hnot]
    exact pollMergeObjectGate_frame st (adaptScheduledDay raw nowDate) now lastLocalEditTime
  · intro hgt
    unfold pollMergeStep
    rw [pollMergeWorkLogGate_accept st (adaptScheduledDay raw nowDate) now lastLocalEditTime
      hdiff hgt (raw.workLog.getD []) rfl]
    have h2 := pollMergeObjectGate_frame
      { st with
          log := raw.workLog.getD [],
          lastServerDataHash := normalizeWorkLog (adaptScheduledDay raw nowDate).workLog }
      (adaptScheduledDay raw nowDate) now lastLocalEditTime
    exact ⟨h2.1, h2.2⟩

/-- C1 witness: a differing snapshot arriving 4000 ms after the last local
edit overwrites the local log and hash. -/
theorem claim_C1_witness :
    (pollMergeStep
      { selectedObject := "obj",
        log := [{ itemId := "A", quantity := 1 }],
        lastServerDataHash := "h" }
      (adaptScheduledDay { workLog := some [{ itemId := "B", quantity := 2 }] } "2025-01-01")
      5000 1000).log = [{ itemId := "B", quantity := 2 }] ∧
    (pollMergeStep
      { selectedObject := "obj",
        log := [{ itemId := "A", quantity := 1 }],
        lastServerDataHash := "h" }
      (adaptScheduledDay { workLog := some [{ itemId := "B", quantity := 2 }] } "2025-01-01")
      5000 1000).lastServerDataHash =
      normalizeWorkLog
        (adaptScheduledDay { workLog := some [{ itemId := "B", quantity := 2 }] }
          "2025-01-01").workLog :=
  (claim_C1 { workLog := some [{ itemId := "B", quantity := 2 }] } "2025-01-01"
    { selectedObject := "obj",
      log := [{ itemId := "A", quantity := 1 }],
      lastServerDataHash := "h" }
    5000 1000 (by decide)).2 (by decide)

/-- `List.findIdx` returns the index of the first satisfying element. -/
lemma findIdx_of_first {α : Type} (p : α → Bool) :
    ∀ (l : List α) (i : Nat) (x : α), l[i]? = some x → p x = true →
      (∀ j, j < i → ∀ y, l[j]? = some y → p y = false) →
      l.findIdx p = i
  | [], i, x, h, _, _ => by simp at h
  | a :: as, 0, x, h, hp, _ => by
    rw [List.getElem?_cons_zero, Option.some.injEq] at h
    subst h
    simp [List.findIdx_cons, hp]
  | a :: as, i + 1, x, h, hp, hfirst => by
    have ha : p a = false := hfirst 0 (Nat.succ_pos i) a List.getElem?_cons_zero
    rw [List.findIdx_cons, ha, cond_false]
    have hrec := findIdx_of_first p as i x (by rw [← List.getElem?_cons_succ (a := a)]; exact h)
      hp (fun j hj y hy =>
        hfirst (j + 1) (Nat.succ_lt_succ hj) y (by rw [List.getElem?_cons_succ]; exact hy))
    omega

/-- `List.findIdx?` finds exactly the first satisfying index. -/
lemma findIdx?_of_first {α : Type} (p : α → Bool) (l : List α) (i : Nat) (x : α)
    (h : l[i]? = some x) (hp : p x = true)
    (hfirst : ∀ j, j < i → ∀ y, l[j]? = some y → p y = false) :
    l.findIdx? p = some i :=
  List.findIdx?_eq_some_iff_findIdx_eq.mpr
    ⟨(List.getElem?_eq_some.mp h).1, findIdx_of_first p l i x h hp hfirst⟩

/-- C10: `updateScheduleItem` appends the adapted item when no schedule entry
has a matching id, and otherwise replaces exactly the first matching entry,
preserving the length and leaving every other position unchanged. -/
theorem claim_C10 (prev : List ScheduledDay) (item : PartialScheduledDay) (nowDate : String) :
    ((∀ s ∈ prev, (s.id == (adaptScheduledDay item nowDate).id) = false) →
      updateScheduleItem prev item nowDate = prev ++ [adaptScheduledDay item nowDate]) ∧
    (∀ (i : Nat) (x : ScheduledDay), prev[i]? = some x →
      (x.id == (adaptScheduledDay item nowDate).id) = true →
      (∀ j, j < i → ∀ y, prev[j]? = some y →
        (y.id == (adaptScheduledDay item nowDate).id) = false) →
      (updateScheduleItem prev item nowDate).length = prev.length ∧
      (updateScheduleItem prev item nowDate)[i]? = some (adaptScheduledDay item nowDate) ∧
      ∀ j, j ≠ i → (updateScheduleItem prev item nowDate)[j]? = prev[j]?) := by
  constructor
  · intro hnone
    simp only [updateScheduleItem]
    rw [List.findIdx?_eq_none_iff.mpr hnone]
  · intro i x hget hmatch hfirst
    have hidx : prev.findIdx? (fun s => s.id == (adaptScheduledDay item nowDate).id) = some i :=
      findIdx?_of_first _ prev i x hget hmatch hfirst
    have hlt : i < prev.length := (List.getElem?_eq_some.mp hget).1
    have hres : updateScheduleItem prev item nowDate =
        prev.set i (adaptScheduledDay item nowDate) := by
      simp only [updateScheduleItem]
      rw [hidx]
    refine ⟨?_, ?_, ?_⟩
    · rw [hres, List.length_set]
    · rw [hres, List.getElem?_set]
      simp [hlt]
    · intro j hj
      rw [hres, List.getElem?_set_ne (Ne.symm hj)]

/-- C10 witness: the adapted item replaces the sole entry carrying the same
id, leaving the length unchanged. -/
theorem claim_C10_witness :
    (updateScheduleItem
      [{ id := some 5, userId := 1, date := "2025-01-01", objectId := none,
         completed := false, status := ReportStatus.draft, earnings := 0, workLog := none }]
      { id := some 5, status := some ReportStatus.completed } "2025-01-02").length = 1 ∧
    (updateScheduleItem
      [{ id := some 5, userId := 1, date := "2025-01-01", objectId := none,
         completed := false, status := ReportStatus.draft, earnings := 0, workLog := none }]
      { id := some 5, status := some ReportStatus.completed } "2025-01-02")[0]? =
      some (adaptScheduledDay { id := some 5, status := some ReportStatus.completed }
        "2025-01-02") :=
  have h := (claim_C10
    [{ id := some 5, userId := 1, date := "2025-01-01", objectId := none,
       completed := false, status := ReportStatus.draft, earnings := 0, workLog := none }]
    { id := some 5, status := some ReportStatus.completed } "2025-01-02").2 0
    { id := some 5, userId := 1, date := "2025-01-01", objectId := none,
      completed := false, status := ReportStatus.draft, earnings := 0, workLog := none }
    rfl (by decide) (fun j hj => absurd hj (Nat.not_lt_zero j))
  ⟨h.1, h.2.1⟩

end Smarthome
